import Mathlib

/-!
Shallow embedding of the sentiment-price pattern detection engine of
`pattern_analyzer.py` (class `PatternAnalyzer`): per-date sentiment grouping,
nearest-date price lookup, windowed pattern detection, confidence scoring and
trading-signal generation.

Dates are modelled as integers (day numbers), sentiment scores and prices as
rationals, and the confidence score (which involves a square root via
`np.std`) as a real number.
-/

namespace RdditInfo

/-- A sentiment document as consumed by `_group_sentiment_by_date`:
`stock_symbol` (string field), `analyzed_at` (truncated to its calendar date),
and the `sentiments` mapping from symbol key to score (a key is present in the
association list exactly when the Python dict has a `score` entry for it). -/
structure SentimentRecord where
  stock_symbol : String
  analyzed_at : Int
  sentiments : List (String × ℚ)
deriving DecidableEq, Repr

/-- One row of the price DataFrame: a calendar date and a closing price. -/
structure PricePoint where
  date : Int
  close : ℚ
deriving DecidableEq, Repr

/-- Configuration section `pattern_analysis` with the keys the detector reads:
`window_days`, `min_mentions`, `price_change_threshold`. -/
structure AnalyzerConfig where
  window_days : Nat
  min_mentions : Nat
  price_change_threshold : ℚ
deriving DecidableEq, Repr

/-- The defaults the code supplies to `config.get`: window 7 days, 5 minimum
mentions, 5 percent price-change threshold. -/
def defaultConfig : AnalyzerConfig := ⟨7, 5, 5⟩

/-- Python `str.upper`, as the character sequence of the uppercased string. -/
def pyUpper (s : String) : List Char := s.toList.map Char.toUpper

/-- Python dict `.get`: first binding of the key in the association list
(keys compared as strings, i.e. as their character sequences). -/
def lookupScore (l : List (String × ℚ)) (key : List Char) : Option ℚ :=
  (l.find? (fun p => p.1.toList == key)).map (·.2)

/-- The symbol filter and score extraction of `_group_sentiment_by_date`
(lines 152-157): the record passes when `symbol.upper()` occurs as a substring
of its `stock_symbol` (Python `in` on strings), and then contributes the
`score` found under the key `symbol.upper()` in its `sentiments` dict. -/
def recordScore (symbol : String) (s : SentimentRecord) : Option ℚ :=
  if pyUpper symbol <:+: s.stock_symbol.toList then
    lookupScore s.sentiments (pyUpper symbol)
  else
    none

/-- `_group_sentiment_by_date` restricted to one date bucket: the scores of
the records analyzed on date `d` that pass the symbol filter, in input
order. -/
def group_sentiment_by_date (sentiments : List SentimentRecord) (symbol : String)
    (d : Int) : List ℚ :=
  sentiments.filterMap (fun s => if s.analyzed_at = d then recordScore symbol s else none)

/-- The sorted list of distinct keys of the grouped dict: the dates on which
at least one record contributed a score (`sorted(sentiment_by_date.keys())`,
line 99). -/
def sentiment_dates (sentiments : List SentimentRecord) (symbol : String) : List Int :=
  List.insertionSort (· ≤ ·)
    ((sentiments.filterMap
        (fun s => (recordScore symbol s).map (fun _ => s.analyzed_at))).dedup)

/-- `np.mean`: sum divided by length. -/
def listMean (l : List ℚ) : ℚ := l.sum / l.length

/-- Population variance (the quantity under the square root of `np.std`). -/
def listVariance (l : List ℚ) : ℚ :=
  ((l.map (fun x => (x - listMean l) ^ 2)).sum) / l.length

/-- `np.std`: population standard deviation, the square root of the
population variance. -/
noncomputable def np_std (l : List ℚ) : ℝ := Real.sqrt ((listVariance l : ℚ) : ℝ)

/-- `_calculate_confidence` (lines 184-200): `0.0` for an empty pool,
otherwise `max(0, 1 - np.std(scores) / 2)`. -/
noncomputable def calculate_confidence (scores : List ℚ) : ℝ :=
  if scores = [] then 0 else max 0 (1 - np_std scores / 2)

/-- `_get_price_at_date`, nearest-date branch (lines 175-177): pandas
`idxmin` keeps the first row attaining the minimum `date_diff`, so the scan
switches rows only on a strict decrease of the distance. -/
def nearestRow (target : Int) : PricePoint → List PricePoint → PricePoint
  | best, [] => best
  | best, r :: rest =>
      if |r.date - target| < |best.date - target| then nearestRow target r rest
      else nearestRow target best rest

/-- `_get_price_at_date` (lines 166-182): the close of the last row whose
date equals the target when one exists, otherwise the close of the
first-minimal-distance row; `none` when the series is empty (no `date`
column, or `idxmin` on an empty frame raising into the `except`). -/
def get_price_at_date (rows : List PricePoint) (target : Int) : Option ℚ :=
  match (rows.filter (fun r => r.date == target)).getLast? with
  | some r => some r.close
  | none =>
      match rows with
      | [] => none
      | r :: rest => some (nearestRow target r rest).close

/-- Pattern classification labels. -/
inductive Classification
  | BULLISH
  | BEARISH
  | NEUTRAL
deriving DecidableEq, Repr

/-- The classification branch of `_analyze_sentiment_price_patterns`
(lines 132-137): bullish when sentiment exceeds `0.3` and the price change
exceeds the threshold, bearish on the mirrored condition, neutral
otherwise. -/
def classify (threshold avg_sentiment price_change : ℚ) : Classification :=
  if avg_sentiment > 3/10 ∧ price_change > threshold then .BULLISH
  else if avg_sentiment < -(3/10) ∧ price_change < -threshold then .BEARISH
  else .NEUTRAL

/-- One classified window (lines 123-130). -/
structure Pattern where
  window_start : Int
  window_end : Int
  avg_sentiment : ℚ
  mention_count : Nat
  price_change_percent : ℚ
  confidence : ℝ

/-- The three classification buckets of the result dict (lines 92-94). -/
structure PatternBuckets where
  bullish_patterns : List Pattern
  bearish_patterns : List Pattern
  neutral_patterns : List Pattern

/-- The pooled scores of the window starting at index `i` (lines 105-107):
`for j in range(i, min(i + window_days, len(sentiment_dates)))`, extending
with the bucket of `sentiment_dates[j]`. -/
def window_scores (byDate : Int → List ℚ) (dates : List Int) (window_days i : Nat) :
    List ℚ :=
  ((List.range' i (min (i + window_days) dates.length - i)).map
    (fun j => byDate (dates.getD j 0))).flatten

/-- One iteration of the window loop (lines 101-137): skip when the pooled
mention count is under `min_mentions`, resolve start and end prices, skip when
either is falsy (Python truthiness: `None` or `0.0`), otherwise append the
classified pattern to its bucket. -/
noncomputable def analyze_step (cfg : AnalyzerConfig) (prices : List PricePoint)
    (byDate : Int → List ℚ) (dates : List Int) (acc : PatternBuckets) (i : Nat) :
    PatternBuckets :=
  let window_start := dates.getD i 0
  let window_end := dates.getD (i + cfg.window_days) 0
  let ws := window_scores byDate dates cfg.window_days i
  if ws.length < cfg.min_mentions then acc
  else
    let avg_sentiment := listMean ws
    match get_price_at_date prices window_start, get_price_at_date prices window_end with
    | some price_at_start, some price_at_end =>
        if price_at_start ≠ 0 ∧ price_at_end ≠ 0 then
          let price_change := (price_at_end - price_at_start) / price_at_start * 100
          let pat : Pattern :=
            ⟨window_start, window_end, avg_sentiment, ws.length, price_change,
              calculate_confidence ws⟩
          match classify cfg.price_change_threshold avg_sentiment price_change with
          | .BULLISH => { acc with bullish_patterns := acc.bullish_patterns ++ [pat] }
          | .BEARISH => { acc with bearish_patterns := acc.bearish_patterns ++ [pat] }
          | .NEUTRAL => { acc with neutral_patterns := acc.neutral_patterns ++ [pat] }
        else acc
    | _, _ => acc

/-- `_analyze_sentiment_price_patterns` (lines 62-142) restricted to its
algorithmic core: group sentiments by date, sort the distinct dates, and run
the window loop `for i in range(len(sentiment_dates) - window_days)`. -/
noncomputable def analyze_patterns (cfg : AnalyzerConfig)
    (sentiments : List SentimentRecord) (prices : List PricePoint)
    (symbol : String) : PatternBuckets :=
  let byDate := group_sentiment_by_date sentiments symbol
  let dates := sentiment_dates sentiments symbol
  (List.range (dates.length - cfg.window_days)).foldl
    (analyze_step cfg prices byDate dates) ⟨[], [], []⟩

/-- Signal kinds emitted by `generate_trading_signals`. -/
inductive SignalType
  | BUY
  | SELL
deriving DecidableEq, Repr

/-- A trading signal (lines 300-307 and 312-319). -/
structure Signal where
  symbol : String
  signal_type : SignalType
  confidence : ℝ
  expected_return : ℚ
  pattern_date : Int
  reason : String

/-- The BUY signal built from a qualifying bullish pattern (lines 300-307). -/
def mkBuy (symbol : String) (p : Pattern) : Signal :=
  ⟨symbol, .BUY, p.confidence, p.price_change_percent, p.window_end,
    "Bullish sentiment pattern with " ++ toString p.mention_count ++ " mentions"⟩

/-- The SELL signal built from a qualifying bearish pattern (lines 312-319). -/
def mkSell (symbol : String) (p : Pattern) : Signal :=
  ⟨symbol, .SELL, p.confidence, p.price_change_percent, p.window_end,
    "Bearish sentiment pattern with " ++ toString p.mention_count ++ " mentions"⟩

open Classical in
/-- The loop over the bullish bucket (lines 298-307): append a BUY signal for
each pattern with confidence above `0.7`. -/
noncomputable def buySignals (symbol : String) : List Pattern → List Signal
  | [] => []
  | p :: rest =>
      if p.confidence > 7/10 then mkBuy symbol p :: buySignals symbol rest
      else buySignals symbol rest

open Classical in
/-- The loop over the bearish bucket (lines 310-319). -/
noncomputable def sellSignals (symbol : String) : List Pattern → List Signal
  | [] => []
  | p :: rest =>
      if p.confidence > 7/10 then mkSell symbol p :: sellSignals symbol rest
      else sellSignals symbol rest

/-- `generate_trading_signals` (lines 295-321) given the pattern buckets:
buy signals from the bullish bucket followed by sell signals from the bearish
bucket. -/
noncomputable def generate_trading_signals (symbol : String) (patterns : PatternBuckets) :
    List Signal :=
  buySignals symbol patterns.bullish_patterns ++ sellSignals symbol patterns.bearish_patterns

open Classical in
/-- The patterns of a bucket that pass the `confidence > 0.7` filter of
`generate_trading_signals`. -/
noncomputable def qualifying (l : List Pattern) : List Pattern :=
  l.filter (fun p => decide (p.confidence > 7/10))

/-- Python float truthiness of an optional price: `None` and `0.0` are
falsy, so the guard `if price_at_start and price_at_end` (line 119) skips
both. -/
def falsyPrice (o : Option ℚ) : Prop := o = none ∨ o = some 0

/-- The pattern record built for the window starting at index `i` when the
guards pass: start date `dates[i]`, end date `dates[i + window_days]`, the
mean and count of the pooled scores, the realized price change and the
confidence over the pooled scores (lines 123-130). -/
noncomputable def patAt (cfg : AnalyzerConfig) (byDate : Int → List ℚ)
    (dates : List Int) (i : Nat) (pc : ℚ) : Pattern :=
  ⟨dates.getD i 0, dates.getD (i + cfg.window_days) 0,
    listMean (window_scores byDate dates cfg.window_days i),
    (window_scores byDate dates cfg.window_days i).length, pc,
    calculate_confidence (window_scores byDate dates cfg.window_days i)⟩

/-- The condition under which the window at index `i` emits a pattern: the
pooled mention count reaches `min_mentions` and both boundary prices resolve
to nonzero (truthy) values. -/
def emitCond (cfg : AnalyzerConfig) (prices : List PricePoint)
    (byDate : Int → List ℚ) (dates : List Int) (i : Nat) : Prop :=
  ¬ (window_scores byDate dates cfg.window_days i).length < cfg.min_mentions ∧
  ∃ a b, get_price_at_date prices (dates.getD i 0) = some a ∧
    get_price_at_date prices (dates.getD (i + cfg.window_days) 0) = some b ∧
    a ≠ 0 ∧ b ≠ 0

/-- Total number of patterns across the three buckets. -/
def totalPatterns (b : PatternBuckets) : Nat :=
  b.bullish_patterns.length + b.bearish_patterns.length + b.neutral_patterns.length

/-- Sample record: one score of `1` for symbol `A` analyzed on date 0. -/
def recA0 : SentimentRecord := ⟨"A", 0, [("A", 1)]⟩

/-- Sample record: one score of `1` for symbol `A` analyzed on date 1. -/
def recA1 : SentimentRecord := ⟨"A", 1, [("A", 1)]⟩

/-- Sample record: one score of `1` for symbol `A` analyzed on date 2. -/
def recA2 : SentimentRecord := ⟨"A", 2, [("A", 1)]⟩

/-- A record whose stored symbol is lower-case `aapl` although its
`sentiments` dict has a score under the upper-case key. -/
def lowerRecord : SentimentRecord := ⟨"aapl", 0, [("AAPL", 1)]⟩

/-- Sample price series covering dates 0, 1 and 2. -/
def samplePrices : List PricePoint := [⟨0, 10⟩, ⟨1, 10⟩, ⟨2, 10⟩]

/-- A price series whose only point has closing price `0.0`. -/
def zeroPrices : List PricePoint := [⟨0, 0⟩]

/-- Two price points around (but not on) the target date used to exercise
the nearest-date fallback. -/
def tieRows : List PricePoint := [⟨0, 10⟩, ⟨2, 20⟩]

/-! ### Helper lemmas -/

theorem calculate_confidence_mem (l : List ℚ) :
    calculate_confidence l ∈ Set.Icc (0 : ℝ) 1 := by
  unfold calculate_confidence
  split_ifs with h
  · exact ⟨le_refl 0, zero_le_one⟩
  · refine ⟨le_max_left 0 _, max_le zero_le_one ?_⟩
    have h0 : (0 : ℝ) ≤ np_std l := Real.sqrt_nonneg _
    linarith

theorem analyze_step_cases (cfg : AnalyzerConfig) (prices : List PricePoint)
    (byDate : Int → List ℚ) (dates : List Int) (acc : PatternBuckets) (i : Nat) :
    analyze_step cfg prices byDate dates acc i = acc ∨
    ∃ pc : ℚ,
      analyze_step cfg prices byDate dates acc i =
          { acc with bullish_patterns := acc.bullish_patterns ++ [patAt cfg byDate dates i pc] } ∨
      analyze_step cfg prices byDate dates acc i =
          { acc with bearish_patterns := acc.bearish_patterns ++ [patAt cfg byDate dates i pc] } ∨
      analyze_step cfg prices byDate dates acc i =
          { acc with neutral_patterns := acc.neutral_patterns ++ [patAt cfg byDate dates i pc] } := by
  by_cases hlen : (window_scores byDate dates cfg.window_days i).length < cfg.min_mentions
  · left
    simp only [analyze_step]
    rw [if_pos hlen]
  · rcases hps : get_price_at_date prices (dates.getD i 0) with _ | a
    · left
      simp only [analyze_step]
      rw [if_neg hlen, hps]
    · rcases hpe : get_price_at_date prices (dates.getD (i + cfg.window_days) 0) with _ | b
      · left
        simp only [analyze_step]
        rw [if_neg hlen, hps, hpe]
      · by_cases hz : a ≠ 0 ∧ b ≠ 0
        · right
          refine ⟨(b - a) / a * 100, ?_⟩
          rcases hcl : classify cfg.price_change_threshold
              (listMean (window_scores byDate dates cfg.window_days i))
              ((b - a) / a * 100) with _ | _ | _
          · left
            simp only [analyze_step]
            rw [if_neg hlen, hps, hpe]
            dsimp only
            rw [if_pos hz, hcl]
            dsimp only [patAt]
          · right; left
            simp only [analyze_step]
            rw [if_neg hlen, hps, hpe]
            dsimp only
            rw [if_pos hz, hcl]
            dsimp only [patAt]
          · right; right
            simp only [analyze_step]
            rw [if_neg hlen, hps, hpe]
            dsimp only
            rw [if_pos hz, hcl]
            dsimp only [patAt]
        · left
          simp only [analyze_step]
          rw [if_neg hlen, hps, hpe]
          dsimp only
          rw [if_neg hz]

theorem window_scores_of_lt (byDate : Int → List ℚ) (dates : List Int) (W i : Nat)
    (h : i < dates.length - W) :
    window_scores byDate dates W i
      = ((List.range' i W).map (fun j => byDate (dates.getD j 0))).flatten := by
  unfold window_scores
  have hmin : min (i + W) dates.length - i = W := by omega
  rw [hmin]

theorem group_ne_nil_of_mem_dates {s : List SentimentRecord} {sym : String} {d : Int}
    (hd : d ∈ sentiment_dates s sym) :
    group_sentiment_by_date s sym d ≠ [] := by
  unfold sentiment_dates at hd
  rw [List.mem_insertionSort, List.mem_dedup] at hd
  rcases List.mem_filterMap.mp hd with ⟨r, hr, hmap⟩
  rcases Option.map_eq_some'.mp hmap with ⟨q, hq, hdate⟩
  apply List.ne_nil_of_mem (a := q)
  unfold group_sentiment_by_date
  exact List.mem_filterMap.mpr ⟨r, hr, by rw [if_pos hdate, hq]⟩

/-! ### Claim theorems -/

/-- C2: a window is classified BULLISH iff `avg_sentiment > 0.3` and the
price change exceeds the threshold (default 5), BEARISH iff
`avg_sentiment < -0.3` and the price change is below the negated threshold,
NEUTRAL otherwise; and the classification is a pure function of
`avg_sentiment` and `price_change_percent` given a fixed threshold. -/
theorem C2_classification (t avg pc : ℚ) :
    (classify t avg pc = .BULLISH ↔ avg > 3/10 ∧ pc > t)
    ∧ (classify t avg pc = .BEARISH ↔ avg < -(3/10) ∧ pc < -t)
    ∧ (classify t avg pc = .NEUTRAL ↔
        ¬(avg > 3/10 ∧ pc > t) ∧ ¬(avg < -(3/10) ∧ pc < -t))
    ∧ defaultConfig.price_change_threshold = 5
    ∧ (∀ avg₂ pc₂, avg = avg₂ → pc = pc₂ → classify t avg pc = classify t avg₂ pc₂) := by
  refine ⟨?_, ?_, ?_, rfl, ?_⟩
  · unfold classify
    split_ifs with h1 h2
    · exact iff_of_true rfl h1
    · exact iff_of_false (by decide) h1
    · exact iff_of_false (by decide) h1
  · unfold classify
    split_ifs with h1 h2
    · refine iff_of_false (by decide) ?_
      rintro ⟨hb, -⟩
      rcases h1 with ⟨ha, -⟩
      linarith
    · exact iff_of_true rfl h2
    · exact iff_of_false (by decide) h2
  · unfold classify
    split_ifs with h1 h2
    · exact iff_of_false (by decide) (fun h => h.1 h1)
    · exact iff_of_false (by decide) (fun h => h.2 h2)
    · exact iff_of_true rfl ⟨h1, h2⟩
  · intro avg₂ pc₂ ha hp
    rw [ha, hp]

/-- C6: the detector and signal generator are deterministic — two runs on
equal configurations, sentiment sequences, price sequences and symbols
produce equal pattern buckets and equal signal lists. -/
theorem C6_determinism (cfg₁ cfg₂ : AnalyzerConfig) (s₁ s₂ : List SentimentRecord)
    (p₁ p₂ : List PricePoint) (sym₁ sym₂ : String)
    (hc : cfg₁ = cfg₂) (hs : s₁ = s₂) (hp : p₁ = p₂) (hsym : sym₁ = sym₂) :
    analyze_patterns cfg₁ s₁ p₁ sym₁ = analyze_patterns cfg₂ s₂ p₂ sym₂
    ∧ generate_trading_signals sym₁ (analyze_patterns cfg₁ s₁ p₁ sym₁)
        = generate_trading_signals sym₂ (analyze_patterns cfg₂ s₂ p₂ sym₂) := by
  subst hc; subst hs; subst hp; subst hsym
  exact ⟨rfl, rfl⟩

/-- C6 witness: the determinism theorem applied at a concrete run. -/
theorem C6_determinism_witness :
    analyze_patterns defaultConfig [recA0] samplePrices "A"
        = analyze_patterns defaultConfig [recA0] samplePrices "A"
    ∧ generate_trading_signals "A" (analyze_patterns defaultConfig [recA0] samplePrices "A")
        = generate_trading_signals "A" (analyze_patterns defaultConfig [recA0] samplePrices "A") :=
  C6_determinism defaultConfig defaultConfig [recA0] [recA0] samplePrices samplePrices
    "A" "A" rfl rfl rfl rfl

/-- C9 counterexample: the record `lowerRecord` stores the symbol in lower
case; it matches the requested symbol `aapl` case-insensitively (their
uppercased forms agree) and carries a score under the uppercased key, yet
`_group_sentiment_by_date` excludes it, because the code uppercases only the
requested symbol before the substring test. -/
theorem C9_counterexample :
    pyUpper lowerRecord.stock_symbol = pyUpper "aapl"
    ∧ (lookupScore lowerRecord.sentiments (pyUpper "aapl")).isSome = true
    ∧ group_sentiment_by_date [lowerRecord] "aapl" 0 = [] :=
  ⟨by decide, by decide, by decide⟩

/-- C9 amended: a score lands in the bucket for date `d` exactly when some
record of the input was analyzed on `d`, the uppercased requested symbol is a
substring (Python `in`) of the record's stored `stock_symbol`, and the
record's `sentiments` dict has that score under the uppercased requested
symbol key; the record's own symbol is never case-normalized. -/
theorem C9_grouping_criterion (s : List SentimentRecord) (symbol : String) (d : Int) (q : ℚ) :
    q ∈ group_sentiment_by_date s symbol d
      ↔ ∃ r ∈ s, r.analyzed_at = d ∧ (pyUpper symbol <:+: r.stock_symbol.toList)
          ∧ lookupScore r.sentiments (pyUpper symbol) = some q := by
  unfold group_sentiment_by_date
  rw [List.mem_filterMap]
  constructor
  · rintro ⟨r, hr, hsome⟩
    by_cases hd : r.analyzed_at = d
    · rw [if_pos hd] at hsome
      unfold recordScore at hsome
      by_cases hinf : pyUpper symbol <:+: r.stock_symbol.toList
      · rw [if_pos hinf] at hsome
        exact ⟨r, hr, hd, hinf, hsome⟩
      · rw [if_neg hinf] at hsome
        exact absurd hsome (by simp)
    · rw [if_neg hd] at hsome
      exact absurd hsome (by simp)
  · rintro ⟨r, hr, hd, hinf, hq⟩
    refine ⟨r, hr, ?_⟩
    rw [if_pos hd]
    unfold recordScore
    rw [if_pos hinf]
    exact hq

/-- C10: the percent-change division is guarded by Python truthiness — a
window whose start or end price resolves to `None` or to `0.0` is skipped
(the step leaves the buckets unchanged), and whenever the step does anything
at all, both prices resolved to nonzero values. -/
theorem C10_division_guard (cfg : AnalyzerConfig) (prices : List PricePoint)
    (byDate : Int → List ℚ) (dates : List Int) (acc : PatternBuckets) (i : Nat) :
    (falsyPrice (get_price_at_date prices (dates.getD i 0)) ∨
        falsyPrice (get_price_at_date prices (dates.getD (i + cfg.window_days) 0)) →
      analyze_step cfg prices byDate dates acc i = acc)
    ∧ (analyze_step cfg prices byDate dates acc i = acc ∨
        ∃ a b, get_price_at_date prices (dates.getD i 0) = some a
          ∧ get_price_at_date prices (dates.getD (i + cfg.window_days) 0) = some b
          ∧ a ≠ 0 ∧ b ≠ 0) := by
  constructor
  · intro hfal
    by_cases hlen : (window_scores byDate dates cfg.window_days i).length < cfg.min_mentions
    · simp only [analyze_step]
      rw [if_pos hlen]
    · rcases hps : get_price_at_date prices (dates.getD i 0) with _ | a
      · simp only [analyze_step]
        rw [if_neg hlen, hps]
      · rcases hpe : get_price_at_date prices (dates.getD (i + cfg.window_days) 0) with _ | b
        · simp only [analyze_step]
          rw [if_neg hlen, hps, hpe]
        · have hz : ¬(a ≠ 0 ∧ b ≠ 0) := by
            simp only [falsyPrice] at hfal
            rcases hfal with hf | hf
            · rcases hf with hf | hf
              · rw [hf] at hps
                exact absurd hps (by simp)
              · have ha0 : a = 0 := Option.some.inj (hps.symm.trans hf)
                rintro ⟨ha, -⟩
                exact ha ha0
            · rcases hf with hf | hf
              · rw [hf] at hpe
                exact absurd hpe (by simp)
              · have hb0 : b = 0 := Option.some.inj (hpe.symm.trans hf)
                rintro ⟨-, hb⟩
                exact hb hb0
          simp only [analyze_step]
          rw [if_neg hlen, hps, hpe]
          dsimp only
          rw [if_neg hz]
  · by_cases hlen : (window_scores byDate dates cfg.window_days i).length < cfg.min_mentions
    · left
      simp only [analyze_step]
      rw [if_pos hlen]
    · rcases hps : get_price_at_date prices (dates.getD i 0) with _ | a
      · left
        simp only [analyze_step]
        rw [if_neg hlen, hps]
      · rcases hpe : get_price_at_date prices (dates.getD (i + cfg.window_days) 0) with _ | b
        · left
          simp only [analyze_step]
          rw [if_neg hlen, hps, hpe]
        · by_cases hz : a ≠ 0 ∧ b ≠ 0
          · exact Or.inr ⟨a, b, rfl, rfl, hz.1, hz.2⟩
          · left
            simp only [analyze_step]
            rw [if_neg hlen, hps, hpe]
            dsimp only
            rw [if_neg hz]

/-- C10 witness: a window whose start date resolves to the closing price
`0.0` is skipped exactly as if the price were missing. -/
theorem C10_division_guard_witness :
    analyze_step defaultConfig zeroPrices (fun _ => [1]) [0, 7] ⟨[], [], []⟩ 0 = ⟨[], [], []⟩ :=
  (C10_division_guard defaultConfig zeroPrices (fun _ => [1]) [0, 7] ⟨[], [], []⟩ 0).1
    (Or.inl (Or.inr rfl))

theorem buySignals_eq_filter (symbol : String) (l : List Pattern) :
    buySignals symbol l = (qualifying l).map (mkBuy symbol) := by
  induction l with
  | nil => rfl
  | cons p rest ih =>
    simp only [buySignals, qualifying, List.filter_cons] at ih ⊢
    by_cases h : p.confidence > 7/10
    · rw [if_pos h, if_pos (decide_eq_true h), List.map_cons, ih]
    · rw [if_neg h, if_neg (by simp [h]), ih]

theorem sellSignals_eq_filter (symbol : String) (l : List Pattern) :
    sellSignals symbol l = (qualifying l).map (mkSell symbol) := by
  induction l with
  | nil => rfl
  | cons p rest ih =>
    simp only [sellSignals, qualifying, List.filter_cons] at ih ⊢
    by_cases h : p.confidence > 7/10
    · rw [if_pos h, if_pos (decide_eq_true h), List.map_cons, ih]
    · rw [if_neg h, if_neg (by simp [h]), ih]

theorem foldl_eq_init {α β : Type} {f : α → β → α} {init : α}
    (hf : ∀ acc b, f acc b = acc) : ∀ l : List β, l.foldl f init = init
  | [] => rfl
  | b :: l => by rw [List.foldl_cons, hf, foldl_eq_init hf l]

theorem totalPatterns_step (cfg : AnalyzerConfig) (prices : List PricePoint)
    (byDate : Int → List ℚ) (dates : List Int) (acc : PatternBuckets) (i : Nat) :
    (emitCond cfg prices byDate dates i →
      totalPatterns (analyze_step cfg prices byDate dates acc i) = totalPatterns acc + 1)
    ∧ (¬ emitCond cfg prices byDate dates i →
      totalPatterns (analyze_step cfg prices byDate dates acc i) = totalPatterns acc) := by
  constructor
  · intro he
    unfold emitCond at he
    obtain ⟨hlen, a, b, hps, hpe, ha, hb⟩ := he
    simp only [analyze_step]
    rw [if_neg hlen, hps, hpe]
    dsimp only
    rw [if_pos ⟨ha, hb⟩]
    rcases hcl : classify cfg.price_change_threshold
        (listMean (window_scores byDate dates cfg.window_days i))
        ((b - a) / a * 100) with _ | _ | _ <;>
      · dsimp only
        simp only [totalPatterns, List.length_append, List.length_cons, List.length_nil]
        omega
  · intro hnot
    unfold emitCond at hnot
    by_cases hlen : (window_scores byDate dates cfg.window_days i).length < cfg.min_mentions
    · simp only [analyze_step]
      rw [if_pos hlen]
    · rcases hps : get_price_at_date prices (dates.getD i 0) with _ | a
      · simp only [analyze_step]
        rw [if_neg hlen, hps]
      · rcases hpe : get_price_at_date prices (dates.getD (i + cfg.window_days) 0) with _ | b
        · simp only [analyze_step]
          rw [if_neg hlen, hps, hpe]
        · have hz : ¬(a ≠ 0 ∧ b ≠ 0) := fun hab =>
            hnot ⟨hlen, a, b, hps, hpe, hab.1, hab.2⟩
          simp only [analyze_step]
          rw [if_neg hlen, hps, hpe]
          dsimp only
          rw [if_neg hz]

/-- C4: signal generation emits exactly one signal per pattern with
confidence strictly above 0.7 — the BUY signals of the qualifying bullish
patterns followed by the SELL signals of the qualifying bearish patterns; the
neutral bucket never contributes, and each signal's `expected_return` copies
the source pattern's `price_change_percent` verbatim. -/
theorem C4_signal_generation (symbol : String) (P : PatternBuckets) :
    generate_trading_signals symbol P
      = (qualifying P.bullish_patterns).map (mkBuy symbol)
        ++ (qualifying P.bearish_patterns).map (mkSell symbol)
    ∧ (∀ N, generate_trading_signals symbol
        { P with neutral_patterns := N } = generate_trading_signals symbol P)
    ∧ (∀ p : Pattern,
        (mkBuy symbol p).expected_return = p.price_change_percent
        ∧ (mkBuy symbol p).signal_type = .BUY
        ∧ (mkSell symbol p).expected_return = p.price_change_percent
        ∧ (mkSell symbol p).signal_type = .SELL) := by
  refine ⟨?_, fun N => rfl, fun p => ⟨rfl, rfl, rfl, rfl⟩⟩
  unfold generate_trading_signals
  rw [buySignals_eq_filter, sellSignals_eq_filter]

/-- C7 counterexample: with `window_days = 2` and a series of exactly 2
distinct sentiment dates, resolvable nonzero prices and a met mention
threshold (`min_mentions = 1` against 2 pooled scores), the detector
iterates over an empty index range and produces zero patterns — not the one
evaluable window the claim asserts. -/
theorem C7_counterexample :
    (sentiment_dates [recA0, recA1] "A").length = 2
    ∧ List.range ((sentiment_dates [recA0, recA1] "A").length - 2) = []
    ∧ get_price_at_date samplePrices 0 = some 10
    ∧ get_price_at_date samplePrices 1 = some 10
    ∧ (10 : ℚ) ≠ 0
    ∧ 1 ≤ (group_sentiment_by_date [recA0, recA1] "A" 0).length
        + (group_sentiment_by_date [recA0, recA1] "A" 1).length
    ∧ analyze_patterns ⟨2, 1, 5⟩ [recA0, recA1] samplePrices "A" = ⟨[], [], []⟩ :=
  ⟨by decide, by decide, rfl, rfl, by norm_num, by decide, rfl⟩

/-- C7 amended: a sentiment series with exactly `window_days + 1` distinct
sentiment-bearing dates yields exactly one evaluated window — one Pattern
when the mention threshold is met and both boundary prices resolve to
nonzero values, zero patterns otherwise. -/
theorem C7_boundary (cfg : AnalyzerConfig) (s : List SentimentRecord)
    (p : List PricePoint) (sym : String)
    (h : (sentiment_dates s sym).length = cfg.window_days + 1) :
    analyze_patterns cfg s p sym
      = analyze_step cfg p (group_sentiment_by_date s sym) (sentiment_dates s sym)
          ⟨[], [], []⟩ 0
    ∧ totalPatterns (analyze_patterns cfg s p sym) ≤ 1
    ∧ (totalPatterns (analyze_patterns cfg s p sym) = 1
        ↔ emitCond cfg p (group_sentiment_by_date s sym) (sentiment_dates s sym) 0) := by
  have hr : (sentiment_dates s sym).length - cfg.window_days = 1 := by omega
  have h1 : analyze_patterns cfg s p sym
      = analyze_step cfg p (group_sentiment_by_date s sym) (sentiment_dates s sym)
          ⟨[], [], []⟩ 0 := by
    simp only [analyze_patterns]
    rw [hr]
    rfl
  obtain ⟨hemit, hskip⟩ := totalPatterns_step cfg p (group_sentiment_by_date s sym)
    (sentiment_dates s sym) ⟨[], [], []⟩ 0
  refine ⟨h1, ?_, ?_⟩
  · by_cases he : emitCond cfg p (group_sentiment_by_date s sym) (sentiment_dates s sym) 0
    · rw [h1, hemit he]
      simp [totalPatterns]
    · rw [h1, hskip he]
      simp [totalPatterns]
  · by_cases he : emitCond cfg p (group_sentiment_by_date s sym) (sentiment_dates s sym) 0
    · refine iff_of_true ?_ he
      rw [h1, hemit he]
      simp [totalPatterns]
    · refine iff_of_false ?_ he
      rw [h1, hskip he]
      simp [totalPatterns]

/-- C7 witness: the amended boundary theorem applied to a series with
exactly `window_days + 1 = 3` distinct dates. -/
theorem C7_boundary_witness :
    totalPatterns (analyze_patterns ⟨2, 1, 5⟩ [recA0, recA1, recA2] samplePrices "A") ≤ 1 :=
  (C7_boundary ⟨2, 1, 5⟩ [recA0, recA1, recA2] samplePrices "A" (by decide)).2.1

/-- C8 counterexample: with the non-positive `window_days = 0` the detector
is not rejected eagerly — it enters the window loop (the index range is
`[0, 1]`) and silently returns the ordinary empty pattern buckets. -/
theorem C8_counterexample :
    List.range ((sentiment_dates [recA0, recA1] "A").length - 0) = [0, 1]
    ∧ analyze_patterns ⟨0, 5, 5⟩ [recA0, recA1] samplePrices "A" = ⟨[], [], []⟩ :=
  ⟨by decide, rfl⟩

/-- C8 amended: the detector performs no configuration validation — a
non-positive `window_days` is used as-is; with `window_days = 0` and any
positive `min_mentions` every window's pooled score list is empty, so the
detector silently returns an empty pattern set for every input instead of
rejecting the configuration. -/
theorem C8_no_validation (s : List SentimentRecord) (p : List PricePoint) (sym : String)
    (m : Nat) (t : ℚ) (hm : 1 ≤ m) :
    analyze_patterns ⟨0, m, t⟩ s p sym = ⟨[], [], []⟩ := by
  simp only [analyze_patterns]
  refine foldl_eq_init (fun acc i => ?_) _
  have hws : window_scores (group_sentiment_by_date s sym) (sentiment_dates s sym) 0 i
      = [] := by
    unfold window_scores
    have h0 : min (i + 0) (sentiment_dates s sym).length - i = 0 := by omega
    rw [h0]
    rfl
  have hcond : (window_scores (group_sentiment_by_date s sym) (sentiment_dates s sym)
      (⟨0, m, t⟩ : AnalyzerConfig).window_days i).length
      < (⟨0, m, t⟩ : AnalyzerConfig).min_mentions := by
    show (window_scores (group_sentiment_by_date s sym) (sentiment_dates s sym) 0 i).length < m
    rw [hws]
    exact hm
  simp only [analyze_step]
  rw [if_pos hcond]

/-- C8 witness: the no-validation theorem applied at a concrete misconfigured
run. -/
theorem C8_no_validation_witness :
    analyze_patterns ⟨0, 5, 5⟩ [recA0] samplePrices "A" = ⟨[], [], []⟩ :=
  C8_no_validation [recA0] samplePrices "A" 5 5 (by decide)

theorem conf_invariant_foldl (cfg : AnalyzerConfig) (prices : List PricePoint)
    (byDate : Int → List ℚ) (dates : List Int) :
    ∀ (l : List Nat) (acc : PatternBuckets),
      (∀ pat ∈ acc.bullish_patterns ++ acc.bearish_patterns ++ acc.neutral_patterns,
        pat.confidence ∈ Set.Icc (0 : ℝ) 1) →
      ∀ pat ∈ (l.foldl (analyze_step cfg prices byDate dates) acc).bullish_patterns
          ++ (l.foldl (analyze_step cfg prices byDate dates) acc).bearish_patterns
          ++ (l.foldl (analyze_step cfg prices byDate dates) acc).neutral_patterns,
        pat.confidence ∈ Set.Icc (0 : ℝ) 1
  | [], acc, hacc => by simpa using hacc
  | i :: rest, acc, hacc => by
      rw [List.foldl_cons]
      apply conf_invariant_foldl cfg prices byDate dates rest
      intro pat hpat
      rcases analyze_step_cases cfg prices byDate dates acc i with hskip | ⟨pc, he | he | he⟩
      · rw [hskip] at hpat
        exact hacc pat hpat
      · rw [he] at hpat
        simp only [List.mem_append, List.mem_singleton] at hpat
        rcases hpat with ((h | rfl) | h) | h
        · exact hacc pat (by simp [List.mem_append, h])
        · exact calculate_confidence_mem _
        · exact hacc pat (by simp [List.mem_append, h])
        · exact hacc pat (by simp [List.mem_append, h])
      · rw [he] at hpat
        simp only [List.mem_append, List.mem_singleton] at hpat
        rcases hpat with (h | (h | rfl)) | h
        · exact hacc pat (by simp [List.mem_append, h])
        · exact hacc pat (by simp [List.mem_append, h])
        · exact calculate_confidence_mem _
        · exact hacc pat (by simp [List.mem_append, h])
      · rw [he] at hpat
        simp only [List.mem_append, List.mem_singleton] at hpat
        rcases hpat with (h | h) | (h | rfl)
        · exact hacc pat (by simp [List.mem_append, h])
        · exact hacc pat (by simp [List.mem_append, h])
        · exact hacc pat (by simp [List.mem_append, h])
        · exact calculate_confidence_mem _

/-- C1: the detector evaluates one window per start index `i` in
`range(len(D) - W)`, i.e. `i` from 0 to `len(D) - W - 1` inclusive;  for
every in-range `i` the pooled scores are exactly the concatenated buckets of
dates `D[i]` through `D[i+W-1]` (the end marker `D[i+W]` excluded), they are
nonempty whenever `W ≥ 1`, and any pattern the step emits carries start date
`D[i]`, end date `D[i+W]`, the arithmetic mean of the pooled scores as
`avg_sentiment` and their number as `mention_count`. -/
theorem C1_window_enumeration (cfg : AnalyzerConfig) (s : List SentimentRecord)
    (p : List PricePoint) (sym : String) (i : Nat)
    (hi : i < (sentiment_dates s sym).length - cfg.window_days) :
    analyze_patterns cfg s p sym
        = (List.range ((sentiment_dates s sym).length - cfg.window_days)).foldl
            (analyze_step cfg p (group_sentiment_by_date s sym) (sentiment_dates s sym))
            ⟨[], [], []⟩
    ∧ window_scores (group_sentiment_by_date s sym) (sentiment_dates s sym)
          cfg.window_days i
        = ((List.range' i cfg.window_days).map
            (fun j => group_sentiment_by_date s sym
              ((sentiment_dates s sym).getD j 0))).flatten
    ∧ (1 ≤ cfg.window_days →
        window_scores (group_sentiment_by_date s sym) (sentiment_dates s sym)
          cfg.window_days i ≠ [])
    ∧ (∀ acc, analyze_step cfg p (group_sentiment_by_date s sym)
            (sentiment_dates s sym) acc i = acc
        ∨ ∃ pc : ℚ,
            analyze_step cfg p (group_sentiment_by_date s sym)
                (sentiment_dates s sym) acc i =
              { acc with bullish_patterns := acc.bullish_patterns
                  ++ [patAt cfg (group_sentiment_by_date s sym) (sentiment_dates s sym) i pc] } ∨
            analyze_step cfg p (group_sentiment_by_date s sym)
                (sentiment_dates s sym) acc i =
              { acc with bearish_patterns := acc.bearish_patterns
                  ++ [patAt cfg (group_sentiment_by_date s sym) (sentiment_dates s sym) i pc] } ∨
            analyze_step cfg p (group_sentiment_by_date s sym)
                (sentiment_dates s sym) acc i =
              { acc with neutral_patterns := acc.neutral_patterns
                  ++ [patAt cfg (group_sentiment_by_date s sym) (sentiment_dates s sym) i pc] }) := by
  refine ⟨rfl, window_scores_of_lt _ _ _ _ hi, ?_,
    (fun acc => analyze_step_cases cfg p (group_sentiment_by_date s sym)
      (sentiment_dates s sym) acc i)⟩
  intro hW
  rw [window_scores_of_lt _ _ _ _ hi]
  rcases Nat.exists_eq_add_of_le hW with ⟨W', hW'⟩
  rw [hW', Nat.add_comm, List.range'_succ, List.map_cons, List.flatten_cons]
  intro hnil
  rcases List.append_eq_nil.mp hnil with ⟨h1, -⟩
  have hi' : i < (sentiment_dates s sym).length := by omega
  have hmem : (sentiment_dates s sym).getD i 0 ∈ sentiment_dates s sym := by
    rw [List.getD_eq_getElem?_getD, List.getElem?_eq_getElem hi', Option.getD_some]
    exact List.getElem_mem hi'
  exact group_ne_nil_of_mem_dates hmem h1

/-- C1 witness: the window-enumeration theorem applied to a concrete series
of three sentiment dates with window length 2, at start index 0. -/
theorem C1_window_enumeration_witness :
    window_scores (group_sentiment_by_date [recA0, recA1, recA2] "A")
        (sentiment_dates [recA0, recA1, recA2] "A") 2 0
      = ((List.range' 0 2).map
          (fun j => group_sentiment_by_date [recA0, recA1, recA2] "A"
            ((sentiment_dates [recA0, recA1, recA2] "A").getD j 0))).flatten :=
  (C1_window_enumeration ⟨2, 1, 5⟩ [recA0, recA1, recA2] samplePrices "A" 0 (by decide)).2.1

/-- C3: for a non-empty score pool the confidence equals
`max(0, 1 - stddev/2)` with the population standard deviation under the
square root, it always lies in `[0, 1]`, a single-score pool has confidence
exactly 1, and consequently every emitted Pattern's confidence lies in
`[0, 1]`. -/
theorem C3_confidence (scores : List ℚ) (h : scores ≠ []) :
    calculate_confidence scores
        = max 0 (1 - Real.sqrt ((listVariance scores : ℚ) : ℝ) / 2)
    ∧ calculate_confidence scores ∈ Set.Icc (0 : ℝ) 1
    ∧ (∀ x : ℚ, scores = [x] → calculate_confidence scores = 1)
    ∧ (∀ cfg s p sym,
        ∀ pat ∈ (analyze_patterns cfg s p sym).bullish_patterns
            ++ (analyze_patterns cfg s p sym).bearish_patterns
            ++ (analyze_patterns cfg s p sym).neutral_patterns,
          pat.confidence ∈ Set.Icc (0 : ℝ) 1) := by
  refine ⟨?_, calculate_confidence_mem scores, ?_, ?_⟩
  · unfold calculate_confidence np_std
    rw [if_neg h]
  · rintro x rfl
    have hv : listVariance [x] = 0 := by
      unfold listVariance listMean
      simp
    unfold calculate_confidence np_std
    rw [if_neg (by simp : ([x] : List ℚ) ≠ []), hv]
    push_cast
    rw [Real.sqrt_zero]
    norm_num
  · intro cfg s p sym
    simp only [analyze_patterns]
    exact conf_invariant_foldl cfg p (group_sentiment_by_date s sym)
      (sentiment_dates s sym) _ _ (by simp)

/-- C3 witness: the confidence theorem applied to the single-score pool
`[1]`. -/
theorem C3_confidence_witness :
    calculate_confidence [1] ∈ Set.Icc (0 : ℝ) 1 :=
  (C3_confidence [1] (by decide)).2.1

theorem nearestRow_spec (t : Int) :
    ∀ (l : List PricePoint) (b : PricePoint),
      (b :: l).Pairwise (fun x y => x.date < y.date) →
      nearestRow t b l ∈ b :: l
        ∧ (∀ q ∈ b :: l, |(nearestRow t b l).date - t| ≤ |q.date - t|)
        ∧ (∀ q ∈ b :: l, |q.date - t| = |(nearestRow t b l).date - t| →
            (nearestRow t b l).date ≤ q.date)
  | [], b, _ => by
      refine ⟨List.mem_cons_self _ _, ?_, ?_⟩
      · intro q hq
        rcases List.mem_cons.mp hq with rfl | h
        · simp [nearestRow]
        · exact absurd h (List.not_mem_nil q)
      · intro q hq hq2
        rcases List.mem_cons.mp hq with rfl | h
        · simp [nearestRow]
        · exact absurd h (List.not_mem_nil q)
  | r :: rest, b, hs => by
      rcases List.pairwise_cons.mp hs with ⟨hb, hrest⟩
      by_cases hlt : |r.date - t| < |b.date - t|
      · obtain ⟨hmem, hmin, htie⟩ := nearestRow_spec t rest r hrest
        have heq : nearestRow t b (r :: rest) = nearestRow t r rest := by
          simp only [nearestRow]
          rw [if_pos hlt]
        rw [heq]
        refine ⟨List.mem_cons_of_mem _ hmem, ?_, ?_⟩
        · intro q hq
          rcases List.mem_cons.mp hq with rfl | hq'
          · exact le_trans (hmin r (List.mem_cons_self _ _)) (le_of_lt hlt)
          · exact hmin q hq'
        · intro q hq hqe
          rcases List.mem_cons.mp hq with rfl | hq'
          · exfalso
            have h1 := hmin r (List.mem_cons_self _ _)
            linarith
          · exact htie q hq' hqe
      · have hlt' : |b.date - t| ≤ |r.date - t| := not_lt.mp hlt
        have hsrest : (b :: rest).Pairwise (fun x y => x.date < y.date) :=
          List.pairwise_cons.mpr ⟨fun y hy => hb y (List.mem_cons_of_mem _ hy),
            (List.pairwise_cons.mp hrest).2⟩
        obtain ⟨hmem, hmin, htie⟩ := nearestRow_spec t rest b hsrest
        have heq : nearestRow t b (r :: rest) = nearestRow t b rest := by
          simp only [nearestRow]
          rw [if_neg hlt]
        rw [heq]
        refine ⟨?_, ?_, ?_⟩
        · rcases List.mem_cons.mp hmem with hEq | hIn
          · rw [hEq]
            exact List.mem_cons_self _ _
          · exact List.mem_cons_of_mem _ (List.mem_cons_of_mem _ hIn)
        · intro q hq
          rcases List.mem_cons.mp hq with rfl | hq'
          · exact hmin q (List.mem_cons_self _ _)
          · rcases List.mem_cons.mp hq' with rfl | hq''
            · exact le_trans (hmin b (List.mem_cons_self _ _)) hlt'
            · exact hmin q (List.mem_cons_of_mem _ hq'')
        · intro q hq hqe
          rcases List.mem_cons.mp hq with rfl | hq'
          · exact htie q (List.mem_cons_self _ _) hqe
          · rcases List.mem_cons.mp hq' with rfl | hq''
            · rcases List.mem_cons.mp hmem with hEq | hIn
              · rw [hEq]
                exact le_of_lt (hb q (List.mem_cons_self _ _))
              · exfalso
                have h1 : |(nearestRow t b rest).date - t| ≤ |b.date - t| :=
                  hmin b (List.mem_cons_self _ _)
                have h2 : |b.date - t| = |(nearestRow t b rest).date - t| := by
                  have h3 : |b.date - t| ≤ |(nearestRow t b rest).date - t| := by
                    rw [← hqe]
                    exact hlt'
                  linarith
                have h4 := htie b (List.mem_cons_self _ _) h2
                have h5 : b.date < (nearestRow t b rest).date :=
                  hb _ (List.mem_cons_of_mem _ hIn)
                omega
            · exact htie q (List.mem_cons_of_mem _ hq'') hqe

theorem filter_date_of_mem (rows : List PricePoint) (target : Int)
    (hs : rows.Pairwise (fun a b => a.date < b.date)) (r : PricePoint)
    (hr : r ∈ rows) (hd : r.date = target) :
    rows.filter (fun q => q.date == target) = [r] := by
  induction rows with
  | nil => cases hr
  | cons x xs ih =>
    rcases List.pairwise_cons.mp hs with ⟨hx, hxs⟩
    rcases List.mem_cons.mp hr with rfl | hr'
    · rw [List.filter_cons, if_pos (by simp [hd])]
      have hnil : xs.filter (fun q => q.date == target) = [] := by
        rw [List.filter_eq_nil_iff]
        intro a ha
        simp only [beq_iff_eq]
        have h1 := hx a ha
        omega
      rw [hnil]
    · have hxne : ¬((x.date == target) = true) := by
        simp only [beq_iff_eq]
        have h1 := hx r hr'
        omega
      rw [List.filter_cons, if_neg hxne]
      exact ih hxs hr'

/-- C5: on a date-ascending price series the lookup returns the exact-date
closing price when one exists; otherwise, for a non-empty series, it returns
the close of a row at minimum absolute date distance from the target with
ties broken in favor of the earlier date; and it returns `none` on an empty
series. -/
theorem C5_price_lookup (rows : List PricePoint) (target : Int)
    (hs : rows.Pairwise (fun a b => a.date < b.date)) :
    (rows = [] → get_price_at_date rows target = none)
    ∧ (∀ r ∈ rows, r.date = target → get_price_at_date rows target = some r.close)
    ∧ (rows ≠ [] → (∀ r ∈ rows, r.date ≠ target) →
        ∃ r ∈ rows, get_price_at_date rows target = some r.close
          ∧ (∀ q ∈ rows, |r.date - target| ≤ |q.date - target|)
          ∧ (∀ q ∈ rows, |q.date - target| = |r.date - target| → r.date ≤ q.date)) := by
  refine ⟨?_, ?_, ?_⟩
  · rintro rfl
    rfl
  · intro r hr hd
    unfold get_price_at_date
    rw [filter_date_of_mem rows target hs r hr hd]
    rfl
  · intro hne hnone
    have hfil : rows.filter (fun q => q.date == target) = [] := by
      rw [List.filter_eq_nil_iff]
      intro a ha
      simp only [beq_iff_eq]
      exact hnone a ha
    cases rows with
    | nil => exact absurd rfl hne
    | cons b l =>
      obtain ⟨hmem, hmin, htie⟩ := nearestRow_spec target l b hs
      refine ⟨nearestRow target b l, hmem, ?_, hmin, htie⟩
      unfold get_price_at_date
      rw [hfil]
      rfl

/-- C5 witness: the lookup theorem applied to the two-point series
`tieRows` at target date 1, an equidistant tie resolved to the earlier
date. -/
theorem C5_price_lookup_witness :
    ∃ r ∈ tieRows, get_price_at_date tieRows 1 = some r.close
      ∧ (∀ q ∈ tieRows, |r.date - 1| ≤ |q.date - 1|)
      ∧ (∀ q ∈ tieRows, |q.date - 1| = |r.date - 1| → r.date ≤ q.date) :=
  (C5_price_lookup tieRows 1 (by decide)).2.2 (by decide) (by decide)

end RdditInfo
